import Mathlib

/-!
Verification development for the repository `earning-calendar-botless`.

The repository holds two Python scripts:
  * `generate_and_post.py` — fetches earnings rows, market caps and macro
    (economic) events for the coming week, aggregates them into a per-day
    structure (`build_week`), renders a PNG calendar and posts it to a
    Discord webhook;
  * `wsb_scrape_and_post.py` — searches a subreddit for the weekly earnings
    thread, scores candidates, extracts an image URL and relays it to the
    same webhook with a duplicate-post guard backed by a one-line state file.

This file shallowly embeds the pure data manipulation of both scripts.
Calendar dates are modelled as natural day numbers counted from a fixed
Monday epoch, so `weekday d = d % 7` with `0` = Monday (matching Python's
`date.weekday()` convention Monday = 0), and a date key in a dict is the
day number itself (ISO date strings are in bijection with day numbers).
Python dicts holding per-day cells are modelled as association lists in
insertion order (Python 3.7+ dict iteration order). External library
primitives outside the repository (HTTP transport, PIL drawing,
`html.unescape`) are modelled by environment-supplied outcomes or, for
`html.unescape`, by a payload-preserving identity on the URL text, since
no claim concerns entity decoding itself.
-/

/-- Minimum market capitalisation filter, `MIN_MCAP = 100_000_000` in
`generate_and_post.py`. -/
def MIN_MCAP : Int := 100000000

/-- Date-range resolver `next_monday_to_friday` of `generate_and_post.py`:
`monday = today + relativedelta(weekday=MO(0))` (dateutil treats `n = 0` as
`n = 1`, i.e. the next Monday, or today itself when today is a Monday) and
`friday = monday + timedelta(days=4)`.  With day numbers counted from a
Monday epoch the jump is `(7 - today % 7) % 7` days. -/
def next_monday_to_friday (today : Nat) : Nat × Nat :=
  let monday := today + (7 - today % 7) % 7
  (monday, monday + 4)

/-- An earnings row as produced by `fetch_earnings_fmp`: keys `symbol`,
`date`, `time`, `name`. -/
structure EarnRow where
  symbol : String
  date : Nat
  time : String
  name : String
deriving DecidableEq

/-- A macro (economic) event as produced by the economic-calendar fetcher:
keys `date`, `time`, `label`.  (The Python dict has exactly these three
keys; in particular it has no `title` key, which matters for the renderer.) -/
structure EconEvent where
  date : Nat
  time : String
  label : String
deriving DecidableEq

/-- An earnings entry attached to a day by `build_week`: keys `symbol`,
`name`, `time`, `marketCap`. -/
structure EarnEntry where
  symbol : String
  name : String
  time : String
  marketCap : Int
deriving DecidableEq

/-- One day's cell in the week structure: the dict
`{"earnings": [...], "macro": [...]}` (the source's `macro` list is the
field `econ` here). -/
structure DayCell where
  earnings : List EarnEntry
  econ : List EconEvent
deriving DecidableEq

/-- The week structure: a Python dict from day (ISO date) to cell, modelled
as an association list in insertion order. -/
abbrev Week : Type := List (Nat × DayCell)

/-- Consecutive day keys starting at `monday`, one per remaining loop
iteration. -/
def weekKeysFrom (monday : Nat) : Nat → List Nat
  | 0 => []
  | n + 1 => monday :: weekKeysFrom (monday + 1) n

/-- Keys inserted by the `while d <= friday` loop of `build_week`, in
insertion order: the loop body runs once per day of `monday..friday`,
i.e. `friday + 1 - monday` times. -/
def weekKeys (monday friday : Nat) : List Nat :=
  weekKeysFrom monday (friday + 1 - monday)

/-- The freshly initialised week structure: every key maps to
`{"earnings": [], "macro": []}`. -/
def initDays (monday friday : Nat) : Week :=
  (weekKeys monday friday).map (fun d => (d, ⟨[], []⟩))

/-- Mutation `days[day][...] = ...` on the dict model: update the cell at
`day` if present, leave the dict unchanged otherwise (the source guards
every mutation with `if day in days` / `if day not in days: continue`). -/
def updateDay (w : Week) (day : Nat) (f : DayCell → DayCell) : Week :=
  w.map (fun kc => if kc.1 = day then (kc.1, f kc.2) else kc)

/-- The `for ev in macro_events` loop of `build_week`: append `ev` to
`days[day]["macro"]` when `ev["date"]` is a key of `days`. -/
def attachEcon (w : Week) (evs : List EconEvent) : Week :=
  evs.foldl (fun ds ev => updateDay ds ev.date (fun c => ⟨c.earnings, c.econ ++ [ev]⟩)) w

/-- Body of the `for e in earnings` loop of `build_week`: skip when the
day is not a key, skip when `market_caps.get(sym)` is `None` or below
`MIN_MCAP`, else append the entry with the cap attached. -/
def attachEarnStep (caps : String → Option Int) (ds : Week) (e : EarnRow) : Week :=
  match caps e.symbol with
  | none => ds
  | some cap =>
    if cap < MIN_MCAP then ds
    else updateDay ds e.date
      (fun c => ⟨c.earnings ++ [⟨e.symbol, e.name, e.time, cap⟩], c.econ⟩)

/-- The `for e in earnings` loop of `build_week`. -/
def attachEarnings (w : Week) (earnings : List EarnRow) (caps : String → Option Int) : Week :=
  earnings.foldl (attachEarnStep caps) w

/-- Stable insertion used to model Python's stable `list.sort(key=...,
reverse=True)` on market cap: a new element passes over every element with
a cap ≥ its own, so equal caps keep their original relative order. -/
def insertCapDesc (a : EarnEntry) : List EarnEntry → List EarnEntry
  | [] => [a]
  | b :: l => if a.marketCap ≤ b.marketCap then b :: insertCapDesc a l else a :: b :: l

/-- Model of `days[day]["earnings"].sort(key=lambda x: x["marketCap"],
reverse=True)`: Python's sort is stable, and a stable sort is uniquely
determined as a function, so this left-to-right stable insertion sort
computes the same list. -/
def sortCapDesc (l : List EarnEntry) : List EarnEntry :=
  l.foldl (fun acc a => insertCapDesc a acc) []

/-- The `for day in days: ... sort ...` loop of `build_week`. -/
def sortWeek (w : Week) : Week :=
  w.map (fun kc => (kc.1, ⟨sortCapDesc kc.2.earnings, kc.2.econ⟩))

/-- The week aggregator `build_week(monday, friday, earnings, market_caps,
macro_events)` of `generate_and_post.py`. -/
def build_week (monday friday : Nat) (earnings : List EarnRow)
    (caps : String → Option Int) (evs : List EconEvent) : Week :=
  sortWeek (attachEarnings (attachEcon (initDays monday friday) evs) earnings caps)

/-- Fixed-point rendering of `n / d` with one fractional digit and
round-half-to-even, matching CPython one-decimal fixed-point float
formatting on quotients that are exactly representable as binary doubles
(every quotient this file evaluates it on is). -/
def fmtFixed1 (n d : Nat) : String :=
  let t := n * 10
  let q0 := t / d
  let r := t % d
  let q := if d < 2 * r ∨ (2 * r = d ∧ q0 % 2 = 1) then q0 + 1 else q0
  toString (q / 10) ++ "." ++ toString (q % 10)

/-- Fixed-point rendering of `n / d` with no fractional digit and
round-half-to-even, matching CPython zero-decimal fixed-point float
formatting on exactly representable quotients. -/
def fmtFixed0 (n d : Nat) : String :=
  let q0 := n / d
  let r := n % d
  let q := if d < 2 * r ∨ (2 * r = d ∧ q0 % 2 = 1) then q0 + 1 else q0
  toString q

/-- Market-cap formatter `fmt_mcap` of `generate_and_post.py`:
T / B / M suffixes with one (T, B) or zero (M) decimal digits, plain
`str(n)` below one million. -/
def fmt_mcap (n : Int) : String :=
  if 1000000000000 ≤ n then fmtFixed1 n.toNat 1000000000000 ++ "T"
  else if 1000000000 ≤ n then fmtFixed1 n.toNat 1000000000 ++ "B"
  else if 1000000 ≤ n then fmtFixed0 n.toNat 1000000 ++ "M"
  else toString n

/-!
Embedding of `wsb_scrape_and_post.py`.
-/

/-- Does `pat` occur as a prefix of `s`?  (List-of-characters form, which
the kernel evaluates on literals.) -/
def startsWithList : List Char → List Char → Bool
  | _, [] => true
  | [], _ :: _ => false
  | a :: s, b :: p => a = b && startsWithList s p

/-- Does `pat` occur as a contiguous sublist of `s`? -/
def hasSubList (pat : List Char) : List Char → Bool
  | [] => pat.isEmpty
  | c :: t => startsWithList (c :: t) pat || hasSubList pat t

/-- Unanchored substring test, modelling `re.search` on a literal pattern
and Python's `in` on strings. -/
def containsSub (s pat : String) : Bool :=
  hasSubList pat.data s.data

/-- Suffix test on strings, modelling the anchored `...$` alternatives of
the image-URL pattern. -/
def strEndsWith (s pat : String) : Bool :=
  startsWithList s.data.reverse pat.data.reverse

/-- ASCII lowercasing of one character, the fragment of Python's
`str.lower()` the scraper's keywords exercise. -/
def lowerChar (c : Char) : Char :=
  if 65 ≤ c.toNat ∧ c.toNat ≤ 90 then Char.ofNat (c.toNat + 32) else c

/-- Lowercasing of a string, modelling `str.lower()`. -/
def strLower (s : String) : String :=
  ⟨s.data.map lowerChar⟩

/-- Python whitespace stripped by `str.strip()`. -/
def isSpaceChar (c : Char) : Bool :=
  c = ' ' ∨ c = '\t' ∨ c = '\n' ∨ c = '\r' ∨ c = '\x0b' ∨ c = '\x0c'

/-- Both-ends whitespace strip, modelling `str.strip()`. -/
def stripStr (s : String) : String :=
  ⟨((s.data.dropWhile isSpaceChar).reverse.dropWhile isSpaceChar).reverse⟩

/-- One value of the gallery `media_metadata` dict: the nested
`meta.get("s")` sub-dict's `u`, `x`, `y` fields (an absent `s` is modelled
as all three fields absent, exactly what `meta.get("s") or {}` produces). -/
structure MediaMeta where
  u : Option String
  x : Option Nat
  y : Option Nat
deriving DecidableEq

/-- One entry of `preview["images"]`: `(img.get("source") or {}).get("url")`. -/
structure PreviewImage where
  source_url : Option String
deriving DecidableEq

/-- The non-recursive fields of a Reddit post dict that the script reads.
A gallery value paired with `none` models a `media_metadata` value that is
not a dict (skipped by the `isinstance(meta, dict)` guard); an absent or
empty `media_metadata` dict is the empty list. -/
structure PostFields where
  title : String
  link_flair_text : String
  created_utc : Nat
  is_self : Bool
  id : Option String
  permalink : String
  media_metadata : List (String × Option MediaMeta)
  preview_images : List PreviewImage
  url_overridden_by_dest : Option String
  url : Option String
deriving DecidableEq

/-- A Reddit post: its scalar fields plus the `crosspost_parent_list`
(recursively further posts; absent or non-list is the empty list). -/
inductive RPost where
  | mk (fields : PostFields) (crosspost_parent_list : List RPost)

/-- Scalar fields of a post. -/
def RPost.fields : RPost → PostFields
  | .mk fs _ => fs

/-- The `crosspost_parent_list` of a post. -/
def RPost.cross : RPost → List RPost
  | .mk _ cs => cs

/-- Keyword heuristic `score(p)` inside
`choose_latest_weekly_earnings_post`: weighted presence of "weekly",
"earnings", "thread" in the lowercased title and "earnings" in the
lowercased flair (the `is_self` branch adds 0). -/
def score (p : RPost) : Nat :=
  let title := strLower p.fields.title
  let flair := strLower p.fields.link_flair_text
  (if containsSub title "weekly" then 2 else 0)
  + (if containsSub title "earnings" then 3 else 0)
  + (if containsSub title "thread" then 1 else 0)
  + (if containsSub flair "earnings" then 2 else 0)
  + (if p.fields.is_self then 0 else 0)

/-- Sort key of the candidate ranking: `(score(p), p.get("created_utc", 0))`. -/
def pkey (p : RPost) : Nat × Nat :=
  (score p, p.fields.created_utc)

/-- Strict lexicographic order on sort keys. -/
def keyLt (a b : Nat × Nat) : Prop :=
  a.1 < b.1 ∨ (a.1 = b.1 ∧ a.2 < b.2)

instance (a b : Nat × Nat) : Decidable (keyLt a b) := by
  unfold keyLt; infer_instance

/-- Non-strict lexicographic order on sort keys. -/
def keyLe (a b : Nat × Nat) : Prop :=
  a.1 < b.1 ∨ (a.1 = b.1 ∧ a.2 ≤ b.2)

/-- Stable insertion modelling Python's stable
`posts.sort(key=..., reverse=True)`: a new element passes over every
element whose key is not strictly below its own, so equal keys keep their
original relative order. -/
def insertKeyDesc (a : RPost) : List RPost → List RPost
  | [] => [a]
  | b :: l => if keyLt (pkey b) (pkey a) then a :: b :: l else b :: insertKeyDesc a l

/-- The stable descending sort of the candidate list. -/
def sortKeyDesc (l : List RPost) : List RPost :=
  l.foldl (fun acc a => insertKeyDesc a acc) []

/-- Search-result shape handed to the chooser:
`(data.get("data") or {}).get("children") or []`, each child contributing
its `"data"` dict when it is a truthy dict (`none` models a child that the
`isinstance(c, dict) and c.get("data")` guard rejects). -/
structure SearchData where
  children : List (Option RPost)

/-- The candidate posts extracted from the search JSON. -/
def postsOf (d : SearchData) : List RPost :=
  d.children.filterMap id

/-- Candidate chooser `choose_latest_weekly_earnings_post` of
`wsb_scrape_and_post.py`: sort by `(score, created_utc)` descending, return
the first post with score ≥ 4, else `posts[0]`, else `None`. -/
def choose_latest_weekly_earnings_post (d : SearchData) : Option RPost :=
  let posts := sortKeyDesc (postsOf d)
  match posts.find? (fun p => 4 ≤ score p) with
  | some p => some p
  | none => posts.head?

/-- Model of `html.unescape` on URL text.  Entity decoding is a Python
standard-library primitive outside this repository and no claim concerns
its arithmetic, so it is modelled as preserving the payload. -/
def html_unescape (s : String) : String := s

/-- Gallery scan of `extract_best_image_url`: iterate the
`media_metadata` values in order, keep the first image of strictly largest
area `int(x) * int(y)` among entries whose `u`, `x`, `y` are all truthy. -/
def galleryBest (mm : List (String × Option MediaMeta)) : Option String :=
  (mm.foldl
    (fun acc kv =>
      match kv.2 with
      | none => acc
      | some meta =>
        match meta.u, meta.x, meta.y with
        | some u, some x, some y =>
          if u ≠ "" ∧ x ≠ 0 ∧ y ≠ 0 then
            if acc.2 < (x * y : Int) then (some u, (x * y : Int)) else acc
          else acc
        | _, _, _ => acc)
    ((none : Option String), (-1 : Int))).1

/-- Preview branch of `extract_best_image_url`:
`preview["images"][0]["source"]["url"]` when the image list is nonempty and
the URL is truthy. -/
def previewUrl (imgs : List PreviewImage) : Option String :=
  match imgs with
  | [] => none
  | i :: _ =>
    match i.source_url with
    | some src => if src ≠ "" then some (html_unescape src) else none
    | none => none

/-- Direct-URL branch of `extract_best_image_url`:
`post.get("url_overridden_by_dest") or post.get("url")`, kept when it
matches the pattern `(i\.redd\.it|i\.imgur\.com|\.png$|\.jpg$|\.jpeg$|\.webp$)`. -/
def directUrl (fs : PostFields) : Option String :=
  let u :=
    match fs.url_overridden_by_dest with
    | some s => if s ≠ "" then some s else fs.url
    | none => fs.url
  match u with
  | none => none
  | some s =>
    if containsSub s "i.redd.it" ∨ containsSub s "i.imgur.com"
        ∨ strEndsWith s ".png" ∨ strEndsWith s ".jpg"
        ∨ strEndsWith s ".jpeg" ∨ strEndsWith s ".webp" then
      some (html_unescape s)
    else none

/-- The non-crosspost part of `extract_best_image_url`: the crosspost
result when truthy, else gallery, else preview, else direct URL. -/
def extractRest (fs : PostFields) (crossRes : Option String) : Option String :=
  match crossRes with
  | some u => some u
  | none =>
    match galleryBest fs.media_metadata with
    | some b => some (html_unescape b)
    | none =>
      match previewUrl fs.preview_images with
      | some s => some s
      | none => directUrl fs

/-- Image extractor `extract_best_image_url` of `wsb_scrape_and_post.py`:
recurse into `crosspost_parent_list[0]` first, then try the gallery, the
preview and the direct URL of the post itself. -/
def extract_best_image_url : RPost → Option String
  | .mk fs cs =>
    match cs with
    | c :: _ => extractRest fs (extract_best_image_url c)
    | [] => extractRest fs none

/-- Depth of the crosspost chain the extractor walks: 1 for the post
itself plus the depth of the first crosspost parent, if any. -/
def crossDepth : RPost → Nat
  | .mk _ cs =>
    match cs with
    | c :: _ => 1 + crossDepth c
    | [] => 1

/-- Fuel-indexed version of the extractor, making the recursion explicit:
`none` means the recursion was cut off before reaching the end of the
crosspost chain, `some r` that the source's unbounded recursion returns `r`. -/
def extractFuel : Nat → RPost → Option (Option String)
  | 0, _ => none
  | fuel + 1, .mk fs cs =>
    match cs with
    | c :: _ =>
      match extractFuel fuel c with
      | none => none
      | some r => some (extractRest fs r)
    | [] => some (extractRest fs none)

/-!
Effectful pipeline of `wsb_scrape_and_post.py` (`main` plus the state-file
helpers), modelled as a function from an environment describing the
outside world to a result, an event trace and the final state-file content.
-/

/-- Python truthiness of an optional string: present and nonempty. -/
def optTruthy : Option String → Bool
  | some s => s ≠ ""
  | none => false

/-- State-file reader `read_last_post_id`: `None` when the file is missing
or its stripped content is empty, else the stripped content. -/
def read_last_post_id (fileContent : Option String) : Option String :=
  match fileContent with
  | none => none
  | some raw =>
    let txt := stripStr raw
    if txt = "" then none else some txt

/-- Externally visible events of one relay run, in order. -/
inductive RelayEv where
  | webhookPost (ok : Bool)
  | imageDownload (ok : Bool)
  | fileWrite (id : String)
deriving DecidableEq

/-- How a relay run ends: an uncaught exception, the duplicate-guard early
return, or a completed relay (text-only or with image). -/
inductive RelayResult where
  | error (msg : String)
  | skippedDuplicate
  | postedNoImage
  | postedImage
deriving DecidableEq

/-- Outcome of one relay run: final result, ordered event trace, and the
state-file content when the process ends. -/
structure RelayOut where
  result : RelayResult
  trace : List RelayEv
  fileContent : Option String
deriving DecidableEq

/-- Environment of one relay run: webhook URL, the parsed search JSON when
one of the three fetch attempts succeeded (`none` = all failed), the raw
state-file content (`none` = missing file), and whether the external image
download and webhook POST calls succeed. -/
structure RelayEnv where
  webhookUrl : String
  searchData : Option SearchData
  fileContent : Option String
  downloadOk : Bool
  webhookOk : Bool

/-- Tail of the relay shared by the text-only and image branches: the
state file is overwritten with `post.get("id")` iff it is truthy
(`if post_id: write_last_post_id(post_id)`). -/
def relayFinish (env : RelayEnv) (post_id : Option String) (ok : RelayResult)
    (tr : List RelayEv) : RelayOut :=
  match post_id with
  | some pid =>
    if pid ≠ "" then ⟨ok, tr ++ [RelayEv.fileWrite pid], some pid⟩
    else ⟨ok, tr, env.fileContent⟩
  | none => ⟨ok, tr, env.fileContent⟩

/-- The script-level pipeline `main` of `wsb_scrape_and_post.py`: abort on
a missing webhook URL, abort when all three search attempts fail, abort
when no candidate is found, return early (no events) when the duplicate
guard `last_id and post_id and post_id == last_id` fires, else post either
the text-only notice (no image found) or the downloaded image, each POST
raising on failure, and record the post id afterwards. -/
def wsb_main (env : RelayEnv) : RelayOut :=
  if env.webhookUrl = "" then
    ⟨.error "DISCORD_WEBHOOK_URL env var is missing.", [], env.fileContent⟩
  else
    match env.searchData with
    | none => ⟨.error "Failed to fetch Reddit search JSON", [], env.fileContent⟩
    | some data =>
      match choose_latest_weekly_earnings_post data with
      | none => ⟨.error "No posts found in Reddit search.", [], env.fileContent⟩
      | some post =>
        let post_id := post.fields.id
        let last_id := read_last_post_id env.fileContent
        if optTruthy last_id ∧ optTruthy post_id ∧ post_id = last_id then
          ⟨.skippedDuplicate, [], env.fileContent⟩
        else
          match extract_best_image_url post with
          | none =>
            let tr := [RelayEv.webhookPost env.webhookOk]
            if env.webhookOk then relayFinish env post_id .postedNoImage tr
            else ⟨.error "webhook POST failed", tr, env.fileContent⟩
          | some _img =>
            let tr1 := [RelayEv.imageDownload env.downloadOk]
            if env.downloadOk then
              let tr2 := tr1 ++ [RelayEv.webhookPost env.webhookOk]
              if env.webhookOk then relayFinish env post_id .postedImage tr2
              else ⟨.error "webhook POST failed", tr2, env.fileContent⟩
            else ⟨.error "image download failed", tr1, env.fileContent⟩

/-!
Effectful pipeline of `generate_and_post.py` (`main`, the renderer and the
webhook poster).  The fetchers catch every request exception and return a
list (empty on failure), so their outcomes are supplied by the
environment; the claims quantify over all such outcomes, the empty list
included.
-/

/-- Environment of one calendar run: the run date, the three fetcher
results (a failed fetch yields the empty list / empty map), the webhook
URL and whether the webhook POST succeeds. -/
structure GenEnv where
  today : Nat
  earnings : List EarnRow
  caps : String → Option Int
  econEvents : List EconEvent
  webhookUrl : String
  webhookOk : Bool

/-- Module-level names that `generate_and_post.py` defines.  Python
resolves the callee of each call at call time against this namespace. -/
def genModuleNames : List String :=
  ["next_monday_to_friday", "fetch_earnings_fmp", "fetch_market_caps_fmp",
   "fetch_macro_events_fmp", "build_week", "fmt_mcap", "render_calendar_png",
   "post_png_to_discord", "main"]

/-- The call `fetch_macro_events(monday, friday)` at line 322 of `main`:
the module defines `fetch_macro_events_fmp` but no `fetch_macro_events`,
so name resolution raises `NameError` before the fetch can happen; were
the name defined, the call would return the fetcher's event list. -/
def callFetchEvents (env : GenEnv) : Except String (List EconEvent) :=
  if "fetch_macro_events" ∈ genModuleNames then Except.ok env.econEvents
  else Except.error "NameError: name fetch_macro_events is not defined"

/-- Renderer `render_calendar_png` on a week built by `build_week`: each
day column draws its first five macro events via `ev["title"]`, but the
event dicts built by the fetcher carry only `date`, `time` and `label`
keys, so any shown macro event raises `KeyError: 'title'`; with no macro
events the drawing completes. -/
def render_calendar_png (week : Week) : Except String Unit :=
  if (week.map (fun kc => (kc.2.econ.take 5).isEmpty)).all (fun b => b) then
    Except.ok ()
  else Except.error "KeyError: 'title'"

/-- Webhook poster `post_png_to_discord`: raise on a missing webhook URL,
POST the PNG, raise on an HTTP error status. -/
def post_png_to_discord (url : String) (ok : Bool) : Except String Unit :=
  if url = "" then Except.error "Missing DISCORD_WEBHOOK_URL secret."
  else if ok then Except.ok () else Except.error "webhook POST failed"

/-- The script-level pipeline `main` of `generate_and_post.py`: resolve
the week, take the fetcher outcomes, call `fetch_macro_events` (line 322),
build the week structure, render it and post it; any uncaught exception
aborts the run with that error. -/
def gen_main (env : GenEnv) : Except String Unit :=
  let mf := next_monday_to_friday env.today
  let earnings := env.earnings
  let caps := env.caps
  match callFetchEvents env with
  | Except.error e => Except.error e
  | Except.ok evs =>
    let week := build_week mf.1 mf.2 earnings caps evs
    match render_calendar_png week with
    | Except.error e => Except.error e
    | Except.ok _ => post_png_to_discord env.webhookUrl env.webhookOk

/-!
Lemmas on the week structure's keys.
-/

theorem updateDay_fst (w : Week) (day : Nat) (f : DayCell → DayCell) :
    (updateDay w day f).map Prod.fst = w.map Prod.fst := by
  induction w with
  | nil => rfl
  | cons kc t ih =>
    simp only [updateDay, List.map_cons] at ih ⊢
    by_cases h : kc.1 = day
    · simp [h, ih]
    · simp [h, ih]

theorem attachEcon_fst (evs : List EconEvent) :
    ∀ w : Week, (attachEcon w evs).map Prod.fst = w.map Prod.fst := by
  induction evs with
  | nil => intro w; rfl
  | cons e t ih =>
    intro w
    simp only [attachEcon, List.foldl_cons] at ih ⊢
    rw [ih, updateDay_fst]

theorem attachEarnStep_fst (caps : String → Option Int) (ds : Week) (e : EarnRow) :
    (attachEarnStep caps ds e).map Prod.fst = ds.map Prod.fst := by
  unfold attachEarnStep
  cases h : caps e.symbol with
  | none => rfl
  | some cap =>
    by_cases hc : cap < MIN_MCAP
    · simp [hc]
    · simp [hc, updateDay_fst]

theorem attachEarnings_fst (caps : String → Option Int) (earnings : List EarnRow) :
    ∀ w : Week, (attachEarnings w earnings caps).map Prod.fst = w.map Prod.fst := by
  induction earnings with
  | nil => intro w; rfl
  | cons e t ih =>
    intro w
    simp only [attachEarnings, List.foldl_cons] at ih ⊢
    rw [ih, attachEarnStep_fst]

theorem sortWeek_fst (w : Week) : (sortWeek w).map Prod.fst = w.map Prod.fst := by
  simp [sortWeek, List.map_map]

theorem initDays_fst (monday friday : Nat) :
    (initDays monday friday).map Prod.fst = weekKeys monday friday := by
  simp [initDays, List.map_map, Function.comp_def]

theorem build_week_fst (monday friday : Nat) (earnings : List EarnRow)
    (caps : String → Option Int) (evs : List EconEvent) :
    (build_week monday friday earnings caps evs).map Prod.fst = weekKeys monday friday := by
  unfold build_week
  rw [sortWeek_fst, attachEarnings_fst, attachEcon_fst, initDays_fst]

theorem weekKeys_five (m : Nat) :
    weekKeys m (m + 4) = [m, m + 1, m + 2, m + 3, m + 4] := by
  unfold weekKeys
  have h : m + 4 + 1 - m = 5 := by omega
  rw [h]
  rfl

/-!
Lemmas on the earnings filter and the per-day sort.
-/

/-- An earnings entry admissible for the week: its symbol has a known
market cap at or above `MIN_MCAP`. -/
def GoodEntry (caps : String → Option Int) (en : EarnEntry) : Prop :=
  ∃ c, caps en.symbol = some c ∧ MIN_MCAP ≤ c

/-- Every earnings entry of every cell of the week is admissible. -/
def GoodWeek (caps : String → Option Int) (w : Week) : Prop :=
  ∀ kc ∈ w, ∀ en ∈ kc.2.earnings, GoodEntry caps en

theorem initDays_good (caps : String → Option Int) (monday friday : Nat) :
    GoodWeek caps (initDays monday friday) := by
  intro kc hkc en hen
  simp only [initDays, List.mem_map] at hkc
  obtain ⟨d, _, rfl⟩ := hkc
  simp at hen

theorem updateDay_good_of_keep (caps : String → Option Int) (w : Week) (day : Nat)
    (f : DayCell → DayCell) (hf : ∀ c, (f c).earnings = c.earnings)
    (hw : GoodWeek caps w) : GoodWeek caps (updateDay w day f) := by
  intro kc hkc en hen
  simp only [updateDay, List.mem_map] at hkc
  obtain ⟨kc0, hkc0, heq⟩ := hkc
  by_cases h : kc0.1 = day
  · rw [if_pos h] at heq
    subst heq
    exact hw kc0 hkc0 en (by rw [hf kc0.2] at hen; exact hen)
  · rw [if_neg h] at heq
    subst heq
    exact hw kc0 hkc0 en hen

theorem attachEcon_good (caps : String → Option Int) (evs : List EconEvent) :
    ∀ w : Week, GoodWeek caps w → GoodWeek caps (attachEcon w evs) := by
  induction evs with
  | nil => intro w hw; exact hw
  | cons e t ih =>
    intro w hw
    simp only [attachEcon, List.foldl_cons] at ih ⊢
    exact ih _ (updateDay_good_of_keep caps w e.date _ (fun c => rfl) hw)

theorem attachEarnStep_good (caps : String → Option Int) (ds : Week) (e : EarnRow)
    (hw : GoodWeek caps ds) : GoodWeek caps (attachEarnStep caps ds e) := by
  unfold attachEarnStep
  cases h : caps e.symbol with
  | none => exact hw
  | some cap =>
    by_cases hc : cap < MIN_MCAP
    · simpa [hc] using hw
    · simp only [hc, if_false]
      intro kc hkc en hen
      simp only [updateDay, List.mem_map] at hkc
      obtain ⟨kc0, hkc0, heq⟩ := hkc
      by_cases hk : kc0.1 = e.date
      · rw [if_pos hk] at heq
        subst heq
        simp only [List.mem_append, List.mem_singleton] at hen
        rcases hen with hen | hen
        · exact hw kc0 hkc0 en hen
        · subst hen
          exact ⟨cap, h, by omega⟩
      · rw [if_neg hk] at heq
        subst heq
        exact hw kc0 hkc0 en hen

theorem attachEarnings_good (caps : String → Option Int) (earnings : List EarnRow) :
    ∀ w : Week, GoodWeek caps w → GoodWeek caps (attachEarnings w earnings caps) := by
  induction earnings with
  | nil => intro w hw; exact hw
  | cons e t ih =>
    intro w hw
    simp only [attachEarnings, List.foldl_cons] at ih ⊢
    exact ih _ (attachEarnStep_good caps w e hw)

theorem mem_insertCapDesc (x a : EarnEntry) :
    ∀ l : List EarnEntry, x ∈ insertCapDesc a l → x = a ∨ x ∈ l := by
  intro l
  induction l with
  | nil => intro h; simp [insertCapDesc] at h; exact Or.inl h
  | cons b t ih =>
    intro h
    unfold insertCapDesc at h
    by_cases hc : a.marketCap ≤ b.marketCap
    · rw [if_pos hc] at h
      rcases List.mem_cons.mp h with h | h
      · exact Or.inr (by simp [h])
      · rcases ih h with h | h
        · exact Or.inl h
        · exact Or.inr (List.mem_cons_of_mem _ h)
    · rw [if_neg hc] at h
      rcases List.mem_cons.mp h with h | h
      · exact Or.inl h
      · exact Or.inr h

theorem mem_sortCapDesc_aux (x : EarnEntry) :
    ∀ (l acc : List EarnEntry),
      x ∈ l.foldl (fun acc a => insertCapDesc a acc) acc → x ∈ acc ∨ x ∈ l := by
  intro l
  induction l with
  | nil => intro acc h; exact Or.inl h
  | cons a t ih =>
    intro acc h
    simp only [List.foldl_cons] at h
    rcases ih _ h with h | h
    · rcases mem_insertCapDesc x a acc h with h | h
      · exact Or.inr (by simp [h])
      · exact Or.inl h
    · exact Or.inr (List.mem_cons_of_mem _ h)

theorem mem_sortCapDesc (x : EarnEntry) (l : List EarnEntry) :
    x ∈ sortCapDesc l → x ∈ l := by
  intro h
  rcases mem_sortCapDesc_aux x l [] h with h | h
  · simp at h
  · exact h

theorem insertCapDesc_sorted (a : EarnEntry) :
    ∀ l : List EarnEntry, l.Pairwise (fun x y => y.marketCap ≤ x.marketCap) →
      (insertCapDesc a l).Pairwise (fun x y => y.marketCap ≤ x.marketCap) := by
  intro l
  induction l with
  | nil => intro _; simp [insertCapDesc]
  | cons b t ih =>
    intro h
    rcases List.pairwise_cons.mp h with ⟨hb, ht⟩
    unfold insertCapDesc
    by_cases hc : a.marketCap ≤ b.marketCap
    · rw [if_pos hc]
      refine List.pairwise_cons.mpr ⟨?_, ih ht⟩
      intro x hx
      rcases mem_insertCapDesc x a t hx with rfl | hx
      · exact hc
      · exact hb x hx
    · rw [if_neg hc]
      refine List.pairwise_cons.mpr ⟨?_, h⟩
      intro x hx
      rcases List.mem_cons.mp hx with rfl | hx
      · omega
      · have := hb x hx
        omega

theorem sortCapDesc_sorted_aux :
    ∀ (l acc : List EarnEntry), acc.Pairwise (fun x y => y.marketCap ≤ x.marketCap) →
      (l.foldl (fun acc a => insertCapDesc a acc) acc).Pairwise
        (fun x y => y.marketCap ≤ x.marketCap) := by
  intro l
  induction l with
  | nil => intro acc h; exact h
  | cons a t ih =>
    intro acc h
    simp only [List.foldl_cons]
    exact ih _ (insertCapDesc_sorted a acc h)

theorem sortCapDesc_sorted (l : List EarnEntry) :
    (sortCapDesc l).Pairwise (fun x y => y.marketCap ≤ x.marketCap) :=
  sortCapDesc_sorted_aux l [] (by simp)

/-- C3: for every set of earnings rows and every market-cap map, no day's
earnings list in the structure returned by `build_week` contains a symbol
whose market cap is absent from the map or below `MIN_MCAP = 100_000_000`. -/
theorem claim_C3 (monday friday : Nat) (earnings : List EarnRow)
    (caps : String → Option Int) (evs : List EconEvent) (day : Nat) (cell : DayCell)
    (hmem : (day, cell) ∈ build_week monday friday earnings caps evs)
    (en : EarnEntry) (hen : en ∈ cell.earnings) :
    ∃ c, caps en.symbol = some c ∧ MIN_MCAP ≤ c := by
  have hg : GoodWeek caps
      (attachEarnings (attachEcon (initDays monday friday) evs) earnings caps) :=
    attachEarnings_good caps earnings _
      (attachEcon_good caps evs _ (initDays_good caps monday friday))
  unfold build_week sortWeek at hmem
  simp only [List.mem_map] at hmem
  obtain ⟨kc0, hkc0, heq⟩ := hmem
  cases heq
  exact hg kc0 hkc0 en (mem_sortCapDesc en _ hen)

/-- Concrete market-cap map used to witness C3 and C4. -/
def exCaps : String → Option Int :=
  fun s => if s = "AAPL" then some 3000000000000
    else if s = "MSFT" then some 2500000000000 else none

/-- Witness for C3: a concrete `build_week` run containing an attached
entry, whose symbol the theorem shows to have a known cap ≥ `MIN_MCAP`. -/
theorem claim_C3_witness :
    ((11, (⟨[⟨"AAPL", "", "", 3000000000000⟩], []⟩ : DayCell)) ∈
        build_week 10 14 [⟨"AAPL", 11, "", ""⟩] exCaps [])
    ∧ ∃ c, exCaps "AAPL" = some c ∧ MIN_MCAP ≤ c :=
  ⟨by decide,
    claim_C3 10 14 [⟨"AAPL", 11, "", ""⟩] exCaps [] 11
      ⟨[⟨"AAPL", "", "", 3000000000000⟩], []⟩ (by decide)
      ⟨"AAPL", "", "", 3000000000000⟩ (by decide)⟩

/-- C4: in the structure returned by `build_week`, each day's earnings
list is sorted non-increasing by the attached `marketCap` value. -/
theorem claim_C4 (monday friday : Nat) (earnings : List EarnRow)
    (caps : String → Option Int) (evs : List EconEvent) (day : Nat) (cell : DayCell)
    (hmem : (day, cell) ∈ build_week monday friday earnings caps evs) :
    cell.earnings.Pairwise (fun a b => b.marketCap ≤ a.marketCap) := by
  unfold build_week sortWeek at hmem
  simp only [List.mem_map] at hmem
  obtain ⟨kc0, hkc0, heq⟩ := hmem
  cases heq
  exact sortCapDesc_sorted _

/-- Witness for C4: a concrete `build_week` run whose day cell the theorem
shows to be sorted non-increasing by market cap. -/
theorem claim_C4_witness :
    ((11, (⟨[⟨"AAPL", "", "", 3000000000000⟩, ⟨"MSFT", "", "", 2500000000000⟩], []⟩
        : DayCell)) ∈
        build_week 10 14 [⟨"MSFT", 11, "", ""⟩, ⟨"AAPL", 11, "", ""⟩] exCaps [])
    ∧ ([⟨"AAPL", "", "", 3000000000000⟩, ⟨"MSFT", "", "", 2500000000000⟩]
        : List EarnEntry).Pairwise (fun a b => b.marketCap ≤ a.marketCap) :=
  ⟨by decide,
    claim_C4 10 14 [⟨"MSFT", 11, "", ""⟩, ⟨"AAPL", 11, "", ""⟩] exCaps [] 11
      ⟨[⟨"AAPL", "", "", 3000000000000⟩, ⟨"MSFT", "", "", 2500000000000⟩], []⟩
      (by decide)⟩

/-- C5: when `monday` and `friday` come from the date-range resolver,
`monday` is a Monday (day number ≡ 0 mod 7 under the Monday-epoch
convention), `friday = monday + 4`, and `build_week` returns exactly the
five keys Monday through Friday in calendar (insertion) order, whatever
the earnings, market-cap and macro-event inputs. -/
theorem claim_C5 (today monday friday : Nat) (earnings : List EarnRow)
    (caps : String → Option Int) (evs : List EconEvent)
    (h : next_monday_to_friday today = (monday, friday)) :
    monday % 7 = 0 ∧ friday = monday + 4 ∧
      (build_week monday friday earnings caps evs).map Prod.fst =
        [monday, monday + 1, monday + 2, monday + 3, monday + 4] := by
  unfold next_monday_to_friday at h
  cases h
  refine ⟨by omega, rfl, ?_⟩
  rw [build_week_fst, weekKeys_five]

/-- Witness for C5: the resolver maps day 3 (a Thursday) to the pair
(7, 11), and `build_week` on empty inputs yields those five keys. -/
theorem claim_C5_witness :
    (7 : Nat) % 7 = 0 ∧ (11 : Nat) = 7 + 4 ∧
      (build_week 7 11 [] (fun _ => none) []).map Prod.fst = [7, 8, 9, 10, 11] :=
  claim_C5 3 7 11 [] (fun _ => none) [] rfl

/-- C1 (code bug): the claim says every run of `main` in
`generate_and_post.py` degrades fetch failures to empty data and always
reaches the render and post steps without raising.  The code cannot: line
322 calls `fetch_macro_events(monday, friday)`, but the module only
defines `fetch_macro_events_fmp`, so every run — whatever the fetcher
outcomes, webhook URL or run date — raises `NameError` before
`build_week`, `render_calendar_png` and `post_png_to_discord` are ever
reached.  (A second slip sits behind it: `render_calendar_png` reads
`ev["title"]` from macro events that only carry a `label` key.) -/
theorem claim_C1 (env : GenEnv) :
    gen_main env = Except.error "NameError: name fetch_macro_events is not defined" := rfl

/-- C8: the three market-cap formatting examples of the spec,
`fmt_mcap(1_500_000_000) = "1.5B"`, `fmt_mcap(999_000_000) = "999M"` and
`fmt_mcap(2_000_000_000_000) = "2.0T"`. -/
theorem claim_C8 :
    fmt_mcap 1500000000 = "1.5B" ∧ fmt_mcap 999000000 = "999M"
      ∧ fmt_mcap 2000000000000 = "2.0T" :=
  ⟨rfl, rfl, rfl⟩

/-!
Lemmas on the candidate ranking of `choose_latest_weekly_earnings_post`.
-/

theorem keyLe_rfl (a : Nat × Nat) : keyLe a a := by
  unfold keyLe; omega

theorem keyLe_of_not_keyLt (a b : Nat × Nat) (h : ¬ keyLt b a) : keyLe a b := by
  unfold keyLt at h; unfold keyLe; omega

theorem keyLe_of_keyLt (a b : Nat × Nat) (h : keyLt a b) : keyLe a b := by
  unfold keyLt at h; unfold keyLe; omega

theorem keyLe_trans_keyLt (x b a : Nat × Nat) (h1 : keyLe x b) (h2 : keyLt b a) :
    keyLe x a := by
  unfold keyLe at h1 ⊢; unfold keyLt at h2; omega

theorem score_le_of_keyLe (r q : RPost) (h : keyLe (pkey r) (pkey q)) :
    score r ≤ score q := by
  unfold keyLe pkey at h
  omega

theorem mem_insertKeyDesc (x a : RPost) :
    ∀ l : List RPost, x ∈ insertKeyDesc a l ↔ x = a ∨ x ∈ l := by
  intro l
  induction l with
  | nil => simp [insertKeyDesc]
  | cons b t ih =>
    unfold insertKeyDesc
    by_cases hc : keyLt (pkey b) (pkey a)
    · rw [if_pos hc]
      simp [List.mem_cons]
    · rw [if_neg hc]
      simp only [List.mem_cons, ih]
      tauto

theorem mem_sortKeyDesc_aux (x : RPost) :
    ∀ (l acc : List RPost),
      x ∈ l.foldl (fun acc a => insertKeyDesc a acc) acc ↔ x ∈ acc ∨ x ∈ l := by
  intro l
  induction l with
  | nil => intro acc; simp
  | cons a t ih =>
    intro acc
    simp only [List.foldl_cons, ih, mem_insertKeyDesc, List.mem_cons]
    tauto

theorem mem_sortKeyDesc (x : RPost) (l : List RPost) :
    x ∈ sortKeyDesc l ↔ x ∈ l := by
  unfold sortKeyDesc
  rw [mem_sortKeyDesc_aux]
  simp

theorem insertKeyDesc_sorted (a : RPost) :
    ∀ l : List RPost, l.Pairwise (fun x y => keyLe (pkey y) (pkey x)) →
      (insertKeyDesc a l).Pairwise (fun x y => keyLe (pkey y) (pkey x)) := by
  intro l
  induction l with
  | nil => intro _; simp [insertKeyDesc]
  | cons b t ih =>
    intro h
    rcases List.pairwise_cons.mp h with ⟨hb, ht⟩
    unfold insertKeyDesc
    by_cases hc : keyLt (pkey b) (pkey a)
    · rw [if_pos hc]
      refine List.pairwise_cons.mpr ⟨?_, h⟩
      intro x hx
      rcases List.mem_cons.mp hx with rfl | hx
      · exact keyLe_of_keyLt _ _ hc
      · exact keyLe_trans_keyLt _ _ _ (hb x hx) hc
    · rw [if_neg hc]
      refine List.pairwise_cons.mpr ⟨?_, ih ht⟩
      intro x hx
      rcases (mem_insertKeyDesc x a t).mp hx with rfl | hx
      · exact keyLe_of_not_keyLt _ _ hc
      · exact hb x hx

theorem sortKeyDesc_sorted_aux :
    ∀ (l acc : List RPost), acc.Pairwise (fun x y => keyLe (pkey y) (pkey x)) →
      (l.foldl (fun acc a => insertKeyDesc a acc) acc).Pairwise
        (fun x y => keyLe (pkey y) (pkey x)) := by
  intro l
  induction l with
  | nil => intro acc h; exact h
  | cons a t ih =>
    intro acc h
    simp only [List.foldl_cons]
    exact ih _ (insertKeyDesc_sorted a acc h)

theorem sortKeyDesc_sorted (l : List RPost) :
    (sortKeyDesc l).Pairwise (fun x y => keyLe (pkey y) (pkey x)) :=
  sortKeyDesc_sorted_aux l [] (by simp)

theorem sorted_head_max (q : RPost) (rest : List RPost)
    (hs : (q :: rest).Pairwise (fun x y => keyLe (pkey y) (pkey x))) :
    ∀ r ∈ q :: rest, keyLe (pkey r) (pkey q) := by
  intro r hr
  rcases List.mem_cons.mp hr with rfl | hr
  · exact keyLe_rfl _
  · exact (List.pairwise_cons.mp hs).1 r hr

theorem choose_eq_head (d : SearchData) (q : RPost) (rest : List RPost)
    (h : sortKeyDesc (postsOf d) = q :: rest) :
    choose_latest_weekly_earnings_post d = some q := by
  have hs := sortKeyDesc_sorted (postsOf d)
  rw [h] at hs
  unfold choose_latest_weekly_earnings_post
  rw [h]
  show (match (q :: rest).find? (fun p => decide (4 ≤ score p)) with
    | some p => some p
    | none => (q :: rest).head?) = some q
  by_cases hq : 4 ≤ score q
  · have hfind : (q :: rest).find? (fun p => decide (4 ≤ score p)) = some q :=
      List.find?_cons_of_pos _ (by simpa using hq)
    rw [hfind]
  · have hfind : (q :: rest).find? (fun p => decide (4 ≤ score p)) = none := by
      rw [List.find?_eq_none]
      intro x hx
      have hle := score_le_of_keyLe x q (sorted_head_max q rest hs x hx)
      simp only [decide_eq_true_eq]
      omega
    rw [hfind]
    rfl

/-- C2 (amended): for every forum search result set, if at least one
candidate has keyword score ≥ 4 the chooser returns a candidate with the
highest keyword score; otherwise, when the result set is nonempty, it
returns a candidate maximal in the lexicographic order on (keyword score,
creation timestamp) — the newest only among the top-scoring candidates,
not necessarily the newest entry overall; on an empty result set it
returns no candidate. -/
theorem claim_C2 (d : SearchData) :
    (postsOf d = [] → choose_latest_weekly_earnings_post d = none)
    ∧ (∀ p, p ∈ postsOf d → 4 ≤ score p →
        ∃ q, choose_latest_weekly_earnings_post d = some q ∧ 4 ≤ score q
          ∧ ∀ r ∈ postsOf d, score r ≤ score q)
    ∧ (postsOf d ≠ [] →
        ∃ q, choose_latest_weekly_earnings_post d = some q
          ∧ ∀ r ∈ postsOf d, keyLe (pkey r) (pkey q)) := by
  refine ⟨?_, ?_, ?_⟩
  · intro h
    unfold choose_latest_weekly_earnings_post
    rw [h]
    rfl
  · intro p hp hscore
    have hmem : p ∈ sortKeyDesc (postsOf d) := (mem_sortKeyDesc p _).mpr hp
    cases hsd : sortKeyDesc (postsOf d) with
    | nil => rw [hsd] at hmem; simp at hmem
    | cons q rest =>
      have hs := sortKeyDesc_sorted (postsOf d)
      rw [hsd] at hs
      have hmax : ∀ r ∈ postsOf d, keyLe (pkey r) (pkey q) := by
        intro r hr
        exact sorted_head_max q rest hs r (by rw [← hsd]; exact (mem_sortKeyDesc r _).mpr hr)
      have hscoreq : ∀ r ∈ postsOf d, score r ≤ score q :=
        fun r hr => score_le_of_keyLe r q (hmax r hr)
      exact ⟨q, choose_eq_head d q rest hsd, le_trans hscore (hscoreq p hp), hscoreq⟩
  · intro hne
    cases hsd : sortKeyDesc (postsOf d) with
    | nil =>
      exfalso
      cases hpo : postsOf d with
      | nil => exact hne hpo
      | cons p t =>
        have hp : p ∈ postsOf d := by rw [hpo]; exact List.Mem.head _
        have := (mem_sortKeyDesc p (postsOf d)).mpr hp
        rw [hsd] at this
        simp at this
    | cons q rest =>
      have hs := sortKeyDesc_sorted (postsOf d)
      rw [hsd] at hs
      refine ⟨q, choose_eq_head d q rest hsd, ?_⟩
      intro r hr
      exact sorted_head_max q rest hs r (by rw [← hsd]; exact (mem_sortKeyDesc r _).mpr hr)

/-- Counterexample post: title mentions "earnings" (score 3, below the
threshold of 4), created at time 100. -/
def cexPost1 : RPost :=
  .mk ⟨"earnings", "", 100, false, some "a", "", [], [], none, none⟩ []

/-- Counterexample post: empty title (score 0), created at time 200 — the
newest entry of the result set. -/
def cexPost2 : RPost :=
  .mk ⟨"", "", 200, false, some "b", "", [], [], none, none⟩ []

/-- Counterexample result set for C2's fallback clause. -/
def cexSearch : SearchData := ⟨[some cexPost1, some cexPost2]⟩

/-- Counterexample for C2 as frozen: in `cexSearch` every candidate
scores below 4, the newest entry was created at time 200, yet the chooser
returns the candidate created at time 100 (the higher-scoring one) — the
code sorts by `(score, created_utc)` and `posts[0]` is the score-first
maximum, not the newest entry. -/
theorem claim_C2_counterexample :
    (∀ p ∈ postsOf cexSearch, score p < 4)
    ∧ (choose_latest_weekly_earnings_post cexSearch).map
        (fun p => p.fields.created_utc) = some 100
    ∧ ∃ p ∈ postsOf cexSearch, p.fields.created_utc = 200 := by
  refine ⟨by decide, rfl, cexPost2, List.Mem.tail _ (List.Mem.head _), rfl⟩

/-- Witness post scoring 6 (title has "weekly", "earnings", "thread"),
created at time 50. -/
def wexPost1 : RPost :=
  .mk ⟨"Weekly Earnings Thread", "", 50, false, some "w1", "", [], [], none, none⟩ []

/-- Witness post scoring 0, created at time 999. -/
def wexPost2 : RPost :=
  .mk ⟨"", "", 999, false, some "w2", "", [], [], none, none⟩ []

/-- Witness result set for the amended C2. -/
def wexSearch : SearchData := ⟨[some wexPost1, some wexPost2]⟩

/-- Witness for the amended C2: all three clauses applied to concrete
result sets — the empty set yields no candidate, and on `wexSearch` (one
candidate scoring 6 ≥ 4) the chooser returns a score-maximal,
key-maximal candidate. -/
theorem claim_C2_witness :
    choose_latest_weekly_earnings_post ⟨[]⟩ = none
    ∧ (∃ q, choose_latest_weekly_earnings_post wexSearch = some q ∧ 4 ≤ score q
        ∧ ∀ r ∈ postsOf wexSearch, score r ≤ score q)
    ∧ (∃ q, choose_latest_weekly_earnings_post wexSearch = some q
        ∧ ∀ r ∈ postsOf wexSearch, keyLe (pkey r) (pkey q)) :=
  ⟨(claim_C2 ⟨[]⟩).1 rfl,
   (claim_C2 wexSearch).2.1 wexPost1 (List.Mem.head _) (by decide),
   (claim_C2 wexSearch).2.2 (List.cons_ne_nil _ _)⟩

/-!
Lemmas on the relay pipeline.
-/

theorem read_last_post_id_ne_empty (fc : Option String) (t : String)
    (h : read_last_post_id fc = some t) : t ≠ "" := by
  unfold read_last_post_id at h
  cases fc with
  | none => cases h
  | some raw =>
    by_cases he : stripStr raw = ""
    · simp [he] at h
    · simp [he] at h
      subst h
      exact he

theorem relayFinish_not_truthy (env : RelayEnv) (pid? : Option String)
    (ok : RelayResult) (tr : List RelayEv) (h : optTruthy pid? = false) :
    relayFinish env pid? ok tr = ⟨ok, tr, env.fileContent⟩ := by
  cases pid? with
  | none => rfl
  | some pid =>
    unfold optTruthy at h
    simp only [decide_eq_false_iff_not, not_not] at h
    simp [relayFinish, h]

theorem relayFinish_truthy (env : RelayEnv) (pid : String)
    (ok : RelayResult) (tr : List RelayEv) (h : pid ≠ "") :
    relayFinish env (some pid) ok tr = ⟨ok, tr ++ [RelayEv.fileWrite pid], some pid⟩ := by
  simp [relayFinish, h]

/-- C7: for every run of the forum relay in which the identifier read
from the state file equals the selected candidate's identifier, `main`
returns through the duplicate guard: the event trace is empty (in
particular no HTTP POST to the webhook happens), the run ends in the
successful `skippedDuplicate` early return, and the state file is left
unchanged. -/
theorem claim_C7 (env : RelayEnv) (data : SearchData) (post : RPost) (pid : String)
    (hw : env.webhookUrl ≠ "")
    (hs : env.searchData = some data)
    (hc : choose_latest_weekly_earnings_post data = some post)
    (hid : post.fields.id = some pid)
    (hread : read_last_post_id env.fileContent = some pid) :
    wsb_main env = ⟨RelayResult.skippedDuplicate, [], env.fileContent⟩ := by
  have hne : pid ≠ "" := read_last_post_id_ne_empty env.fileContent pid hread
  unfold wsb_main
  simp only [hs, hc, if_neg hw]
  have hg : (optTruthy (read_last_post_id env.fileContent) : Prop)
      ∧ (optTruthy post.fields.id : Prop)
      ∧ post.fields.id = read_last_post_id env.fileContent := by
    refine ⟨?_, ?_, ?_⟩
    · rw [hread]; simpa [optTruthy] using hne
    · rw [hid]; simpa [optTruthy] using hne
    · rw [hid, hread]
  simp only [if_pos hg]

/-- Concrete candidate for the C7 witness: the weekly earnings thread with
post id "abc". -/
def c7post : RPost :=
  .mk ⟨"Weekly Earnings Thread", "", 50, false, some "abc", "", [], [], none, none⟩ []

/-- Concrete search result set for the C7 witness. -/
def c7data : SearchData := ⟨[some c7post]⟩

/-- Concrete relay environment for the C7 witness: the state file already
holds "abc". -/
def c7env : RelayEnv := ⟨"https://hook", some c7data, some "abc", true, true⟩

/-- Witness for C7: on the concrete environment whose stored identifier
equals the selected post's id, the relay skips with an empty trace and an
unchanged state file. -/
theorem claim_C7_witness :
    wsb_main c7env = ⟨RelayResult.skippedDuplicate, [], some "abc"⟩ :=
  claim_C7 c7env c7data c7post "abc" (by decide) rfl rfl rfl rfl

/-- C10: the state file is overwritten only as the final event after a
successful webhook POST and only with a present, nonempty post id; and
when the selected post's id is missing or empty, the duplicate guard never
fires (the run never ends in `skippedDuplicate`) and the state file is
left untouched — no `fileWrite` event at all — even when the relay posts
successfully. -/
theorem claim_C10 (env : RelayEnv) :
    ((wsb_main env).fileContent ≠ env.fileContent →
      ∃ l pid, (wsb_main env).trace = l ++ [RelayEv.webhookPost true, RelayEv.fileWrite pid]
        ∧ (wsb_main env).fileContent = some pid ∧ pid ≠ ""
        ∧ ∃ data post, env.searchData = some data
            ∧ choose_latest_weekly_earnings_post data = some post
            ∧ post.fields.id = some pid)
    ∧ (∀ data post, env.searchData = some data →
        choose_latest_weekly_earnings_post data = some post →
        optTruthy post.fields.id = false →
        (wsb_main env).result ≠ RelayResult.skippedDuplicate
          ∧ (wsb_main env).fileContent = env.fileContent
          ∧ ∀ s, RelayEv.fileWrite s ∉ (wsb_main env).trace) := by
  by_cases hw : env.webhookUrl = ""
  · have hm : wsb_main env =
        ⟨RelayResult.error "DISCORD_WEBHOOK_URL env var is missing.", [], env.fileContent⟩ := by
      simp [wsb_main, hw]
    rw [hm]
    exact ⟨fun h => absurd rfl h, fun _ _ _ _ _ => ⟨by simp, rfl, by simp⟩⟩
  · cases hsd : env.searchData with
    | none =>
      have hm : wsb_main env =
          ⟨RelayResult.error "Failed to fetch Reddit search JSON", [], env.fileContent⟩ := by
        simp [wsb_main, hw, hsd]
      rw [hm]
      refine ⟨fun h => absurd rfl h, ?_⟩
      intro data post hs _ _
      cases hs
    | some data =>
      cases hch : choose_latest_weekly_earnings_post data with
      | none =>
        have hm : wsb_main env =
            ⟨RelayResult.error "No posts found in Reddit search.", [], env.fileContent⟩ := by
          simp [wsb_main, hw, hsd, hch]
        rw [hm]
        refine ⟨fun h => absurd rfl h, ?_⟩
        intro data' post hs hc _
        injection hs with hs
        subst hs
        rw [hch] at hc
        cases hc
      | some post =>
        by_cases hg : optTruthy (read_last_post_id env.fileContent) = true
            ∧ optTruthy post.fields.id = true
            ∧ post.fields.id = read_last_post_id env.fileContent
        · have hm : wsb_main env = ⟨RelayResult.skippedDuplicate, [], env.fileContent⟩ := by
            simp only [wsb_main, if_neg hw, hsd, hch]
            rw [if_pos hg]
          rw [hm]
          refine ⟨fun h => absurd rfl h, ?_⟩
          intro data' post' hs hc hid
          injection hs with hs
          subst hs
          rw [hch] at hc
          injection hc with hc
          subst hc
          rw [hid] at hg
          exact absurd hg.2.1 (by simp)
        · have hbase : ∀ data' post', (some data : Option SearchData) = some data' →
              choose_latest_weekly_earnings_post data' = some post' →
              post' = post := by
            intro data' post' hs hc
            injection hs with hs
            subst hs
            rw [hch] at hc
            injection hc with hc
            exact hc.symm
          cases hx : extract_best_image_url post with
          | none =>
            by_cases hok : env.webhookOk = true
            · have hm : wsb_main env =
                  relayFinish env post.fields.id RelayResult.postedNoImage
                    [RelayEv.webhookPost true] := by
                simp only [wsb_main, if_neg hw, hsd, hch, if_neg hg, hx, hok, if_true]
              cases hpid : post.fields.id with
              | none =>
                rw [relayFinish_not_truthy env _ _ _ (by rw [hpid]; rfl)] at hm
                rw [hm]
                refine ⟨fun h => absurd rfl h, ?_⟩
                intro data' post' hs hc hid
                exact ⟨by simp, rfl, by simp⟩
              | some pid =>
                by_cases hpe : pid = ""
                · rw [relayFinish_not_truthy env _ _ _ (by rw [hpid, hpe]; rfl)] at hm
                  rw [hm]
                  refine ⟨fun h => absurd rfl h, ?_⟩
                  intro data' post' hs hc hid
                  exact ⟨by simp, rfl, by simp⟩
                · rw [hpid] at hm
                  rw [relayFinish_truthy env pid _ _ hpe] at hm
                  rw [hm]
                  constructor
                  · intro _
                    exact ⟨[], pid, by simp, rfl, hpe, data, post, rfl, hch, hpid⟩
                  · intro data' post' hs hc hid
                    rw [hbase data' post' hs hc, hpid] at hid
                    simp [optTruthy, hpe] at hid
            · have hm : wsb_main env =
                  ⟨RelayResult.error "webhook POST failed",
                    [RelayEv.webhookPost env.webhookOk], env.fileContent⟩ := by
                simp only [wsb_main, if_neg hw, hsd, hch, if_neg hg, hx, if_neg hok]
              rw [hm]
              refine ⟨fun h => absurd rfl h, ?_⟩
              intro data' post' hs hc hid
              exact ⟨by simp, rfl, by simp⟩
          | some img =>
            by_cases hdl : env.downloadOk = true
            · by_cases hok : env.webhookOk = true
              · have hm : wsb_main env =
                    relayFinish env post.fields.id RelayResult.postedImage
                      [RelayEv.imageDownload true, RelayEv.webhookPost true] := by
                  simp only [wsb_main, if_neg hw, hsd, hch, if_neg hg, hx, hdl, hok, if_true]
                  rfl
                cases hpid : post.fields.id with
                | none =>
                  rw [relayFinish_not_truthy env _ _ _ (by rw [hpid]; rfl)] at hm
                  rw [hm]
                  refine ⟨fun h => absurd rfl h, ?_⟩
                  intro data' post' hs hc hid
                  exact ⟨by simp, rfl, by simp⟩
                | some pid =>
                  by_cases hpe : pid = ""
                  · rw [relayFinish_not_truthy env _ _ _ (by rw [hpid, hpe]; rfl)] at hm
                    rw [hm]
                    refine ⟨fun h => absurd rfl h, ?_⟩
                    intro data' post' hs hc hid
                    exact ⟨by simp, rfl, by simp⟩
                  · rw [hpid] at hm
                    rw [relayFinish_truthy env pid _ _ hpe] at hm
                    rw [hm]
                    constructor
                    · intro _
                      exact ⟨[RelayEv.imageDownload true], pid, by simp, rfl, hpe,
                        data, post, rfl, hch, hpid⟩
                    · intro data' post' hs hc hid
                      rw [hbase data' post' hs hc, hpid] at hid
                      simp [optTruthy, hpe] at hid
              · have hm : wsb_main env =
                    ⟨RelayResult.error "webhook POST failed",
                      [RelayEv.imageDownload true, RelayEv.webhookPost env.webhookOk],
                      env.fileContent⟩ := by
                  simp only [wsb_main, if_neg hw, hsd, hch, if_neg hg, hx, hdl,
                    if_neg hok, if_true]
                  rfl
                rw [hm]
                refine ⟨fun h => absurd rfl h, ?_⟩
                intro data' post' hs hc hid
                exact ⟨by simp, rfl, by simp⟩
            · have hm : wsb_main env =
                  ⟨RelayResult.error "image download failed",
                    [RelayEv.imageDownload env.downloadOk], env.fileContent⟩ := by
                simp only [wsb_main, if_neg hw, hsd, hch, if_neg hg, hx, if_neg hdl]
              rw [hm]
              refine ⟨fun h => absurd rfl h, ?_⟩
              intro data' post' hs hc hid
              exact ⟨by simp, rfl, by simp⟩

/-- Witness post with no id field (for C10's second clause). -/
def c10post : RPost :=
  .mk ⟨"Weekly Earnings Thread", "", 50, false, none, "", [], [], none, none⟩ []

/-- Witness search result for C10's second clause. -/
def c10data : SearchData := ⟨[some c10post]⟩

/-- Witness relay environment whose selected post has no id. -/
def c10envB : RelayEnv := ⟨"https://hook", some c10data, some "old", true, true⟩

/-- Witness post with id "x" (for C10's first clause). -/
def c10post2 : RPost :=
  .mk ⟨"Weekly Earnings Thread", "", 50, false, some "x", "", [], [], none, none⟩ []

/-- Witness relay environment with no state file, whose run writes it. -/
def c10envA : RelayEnv := ⟨"https://hook", some ⟨[some c10post2]⟩, none, true, true⟩

/-- Witness for C10: on `c10envB` (post id absent) the run is never the
duplicate skip and leaves the state file alone; on `c10envA` the state
file does change, and only as the final event of a trace ending in a
successful webhook POST followed by the write of the nonempty id. -/
theorem claim_C10_witness :
    ((wsb_main c10envB).result ≠ RelayResult.skippedDuplicate
      ∧ (wsb_main c10envB).fileContent = c10envB.fileContent
      ∧ ∀ s, RelayEv.fileWrite s ∉ (wsb_main c10envB).trace)
    ∧ ∃ l pid, (wsb_main c10envA).trace = l ++ [RelayEv.webhookPost true, RelayEv.fileWrite pid]
        ∧ (wsb_main c10envA).fileContent = some pid ∧ pid ≠ ""
        ∧ ∃ data post, c10envA.searchData = some data
            ∧ choose_latest_weekly_earnings_post data = some post
            ∧ post.fields.id = some pid :=
  ⟨(claim_C10 c10envB).2 c10data c10post rfl rfl rfl,
   (claim_C10 c10envA).1 (by decide)⟩

/-- C6: the image extractor applies its patterns in priority order —
crosspost recursion first, then the largest-area gallery image, then the
first preview image's source URL, then the direct URL — and returns
`none` when none applies; in particular a post with no crosspost whose
gallery yields an image returns that gallery image even when a preview
image is also present. -/
theorem claim_C6 (fs : PostFields) (cs : List RPost) :
    (extract_best_image_url (.mk fs cs) =
      ((match cs with | c :: _ => extract_best_image_url c | [] => none).orElse (fun _ =>
        ((galleryBest fs.media_metadata).map html_unescape).orElse (fun _ =>
          (previewUrl fs.preview_images).orElse (fun _ => directUrl fs)))))
    ∧ (∀ u, cs = [] → galleryBest fs.media_metadata = some u →
        extract_best_image_url (.mk fs cs) = some (html_unescape u))
    ∧ (cs = [] → galleryBest fs.media_metadata = none →
        previewUrl fs.preview_images = none → directUrl fs = none →
        extract_best_image_url (.mk fs cs) = none) := by
  have hrest : ∀ r, extractRest fs r =
      r.orElse (fun _ => ((galleryBest fs.media_metadata).map html_unescape).orElse (fun _ =>
        (previewUrl fs.preview_images).orElse (fun _ => directUrl fs))) := by
    intro r
    cases r with
    | some u => rfl
    | none =>
      unfold extractRest
      cases hgb : galleryBest fs.media_metadata with
      | some b => simp [Option.orElse]
      | none =>
        cases hpv : previewUrl fs.preview_images with
        | some v => simp [Option.orElse]
        | none => simp [Option.orElse]
  refine ⟨?_, ?_, ?_⟩
  · cases cs with
    | nil => exact hrest none
    | cons c t => exact hrest (extract_best_image_url c)
  · intro u hcs hgb
    subst hcs
    show extractRest fs none = some (html_unescape u)
    simp [extractRest, hgb]
  · intro hcs hgb hpv hdu
    subst hcs
    show extractRest fs none = none
    simp [extractRest, hgb, hpv, hdu]

/-- Gallery metadata for the C6 witness: two images, areas 100 and 10000. -/
def c6meta : List (String × Option MediaMeta) :=
  [("a", some ⟨some "small", some 10, some 10⟩), ("b", some ⟨some "big", some 100, some 100⟩)]

/-- C6 witness post fields: both a gallery and a preview image present. -/
def c6fs : PostFields := ⟨"t", "", 0, false, none, "", c6meta, [⟨some "prev"⟩], none, none⟩

/-- C6 witness post fields with no media at all. -/
def c6fs2 : PostFields := ⟨"t", "", 0, false, none, "", [], [], none, none⟩

/-- Witness for C6: on a crosspost-free post holding both a gallery and a
preview image the extractor returns the gallery's largest-area image
"big", not the preview URL; on a post with no media it returns `none`. -/
theorem claim_C6_witness :
    galleryBest c6fs.media_metadata = some "big"
    ∧ previewUrl c6fs.preview_images = some "prev"
    ∧ extract_best_image_url (.mk c6fs []) = some (html_unescape "big")
    ∧ extract_best_image_url (.mk c6fs2 []) = none :=
  ⟨rfl, rfl, (claim_C6 c6fs []).2.1 "big" rfl rfl, (claim_C6 c6fs2 []).2.2 rfl rfl rfl rfl⟩

theorem crossDepth_pos (p : RPost) : 1 ≤ crossDepth p := by
  cases p with
  | mk fs cs =>
    cases cs with
    | nil => simp [crossDepth]
    | cons c t =>
      have he : crossDepth (RPost.mk fs (c :: t)) = 1 + crossDepth c := rfl
      omega

/-- C9: the crosspost recursion of `extract_best_image_url` terminates on
every finite post value — cutting the recursion off at any fuel bound of
at least the crosspost-chain depth computes exactly the unbounded
function's answer, so the function is total on finite (acyclic) data. -/
theorem claim_C9 (p : RPost) (fuel : Nat) (h : crossDepth p ≤ fuel) :
    extractFuel fuel p = some (extract_best_image_url p) := by
  induction fuel generalizing p with
  | zero =>
    have := crossDepth_pos p
    omega
  | succ n ih =>
    cases p with
    | mk fs cs =>
      cases cs with
      | nil => rfl
      | cons c rest =>
        have he : crossDepth (RPost.mk fs (c :: rest)) = 1 + crossDepth c := rfl
        have hd : crossDepth c ≤ n := by omega
        show (match extractFuel n c with
          | none => none
          | some r => some (extractRest fs r)) =
            some (extract_best_image_url (.mk fs (c :: rest)))
        rw [ih c hd]
        rfl

/-- Inner crosspost target for the C9 witness: carries a preview image. -/
def c9inner : RPost := .mk ⟨"i", "", 0, false, none, "", [], [⟨some "pv"⟩], none, none⟩ []

/-- Outer post for the C9 witness: a crosspost of `c9inner`. -/
def c9outer : RPost := .mk ⟨"o", "", 0, false, none, "", [], [], none, none⟩ [c9inner]

/-- Witness for C9: a crosspost chain of depth 2, on which fuel 2 already
reaches the unbounded extractor's answer. -/
theorem claim_C9_witness :
    crossDepth c9outer ≤ 2
    ∧ extractFuel 2 c9outer = some (extract_best_image_url c9outer) :=
  ⟨by decide, claim_C9 c9outer 2 (by decide)⟩
